import Mathlib

/-!
Wallet command of `ela-cli` (`cli/wallet/wallet.go`).

A shallow embedding of the wallet sub-command.  The Go functions become
functions over an explicit world: the state of everything outside the file
(wallet store, key store, terminal), the byte buffers that hold passwords, and
a trace of every call made to a collaborator and of everything printed.
-/

set_option linter.dupNamespace false

namespace ElaWallet

/-! ## Values -/

/-- The constant `MinMultiSignKeys` of `wallet.go`. -/
def MinMultiSignKeys : Nat := 3

/-- An error value handed back by another package; only its text is known. -/
structure Foreign where
  text : String
  deriving DecidableEq, Repr

/-- A Go `error` as seen by `wallet.go`: either built in this file with
`errors.New`, or received from a collaborator.  `errors.New` yields a value of
its own, so the two never coincide as values. -/
inductive GoError where
  | New (text : String)
  | foreign (e : Foreign)
  deriving DecidableEq, Repr

/-- The method `Error()` of an error value. -/
def GoError.Error : GoError → String
  | .New t => t
  | .foreign e => e.text

/-- The type `crypto.PubKey`: a curve point. -/
structure PubKey where
  X : Int
  Y : Int
  deriving DecidableEq, Repr

/-- The type `Uint168` (a program hash), as its bytes. -/
abbrev Uint168 := List Nat

/-- The type `Fixed64` is Go's `int64`; values are kept as integers and every
addition is reduced to the 64-bit two's-complement range. -/
abbrev Fixed64 := Int

/-- Reduction of an integer to the `int64` range, as Go's arithmetic does. -/
def wrap64 (x : Int) : Fixed64 := (x + 2 ^ 63) % 2 ^ 64 - 2 ^ 63

/-- The `+` of `Fixed64`. -/
def addFixed64 (a b : Fixed64) : Fixed64 := wrap64 (a + b)

/-- Membership in the range of `int64`. -/
def inFixed64 (x : Int) : Prop := -(2 ^ 63) ≤ x ∧ x < 2 ^ 63

instance (x : Int) : Decidable (inFixed64 x) := by
  unfold inFixed64; exact inferInstance

/-- The fields of `walt.Address` that `wallet.go` reads. -/
structure Address where
  Address : String
  ProgramHash : Uint168
  deriving DecidableEq, Repr

/-- The field of `walt.UTXO` that `wallet.go` reads. -/
structure UTXO where
  Amount : Fixed64
  deriving DecidableEq, Repr

/-- A byte slice: `none` is the nil slice, `some a` is the whole backing array
stored at index `a` of the heap. -/
abbrev Slice := Option Nat

/-- The flags of the `wallet` command, as read through `cli.Context`. -/
structure Context where
  NumFlags : Nat
  password : String
  create : Bool
  account : Bool
  changepassword : Bool
  addaccount : String
  balance : Bool
  transaction : String
  reset : Bool
  deriving DecidableEq, Repr

/-! ## Trace and world -/

/-- One observable step: a call to a collaborator (with what was passed and
whether it succeeded) or a write to standard output. -/
inductive Event where
  | Print (args : List String)
  | Println (args : List String)
  | GetPassword (buf : Option Slice)
  | GetConfirmedPassword (buf : Option Slice)
  | Create (pw : Slice) (ok : Bool)
  | Open (ok : Bool)
  | OpenKeyStore (pw : Slice) (ok : Bool)
  | GetPublicKey (pw : Slice)
  | VerifyPassword (pw : Slice) (ok : Bool)
  | ChangePassword (oldPw newPw : Slice) (ok : Bool)
  | AddStandardAddress (key : PubKey) (ok : Bool)
  | AddMultiSignAddress (keys : List PubKey) (ok : Bool)
  | CurrentHeight (code : Nat)
  | SyncChainData
  | GetAddresses (ok : Bool)
  | GetAddressUTXOs (programHash : Uint168) (result : Option (List UTXO))
  | Reset (ok : Bool)
  | createTransaction (ok : Bool)
  | signTransaction (pw : Slice) (ok : Bool)
  | sendTransaction (ok : Bool)
  | ShowSubcommandHelp
  | ShowCommandHelp (command : String)
  | logError (args : List String)
  deriving DecidableEq, Repr

/-- The world a command runs in. -/
structure World (σ : Type) where
  ext : σ
  heap : List (List Nat)
  trace : List Event

/-- How a Go function ends: it returns a value, or the process exits. -/
inductive Res (α : Type) where
  | ret (a : α)
  | exit (code : Nat)
  deriving DecidableEq, Repr

/-- A Go function body: a world transformer with a result. -/
def M (σ α : Type) : Type := World σ → Res α × World σ

/-- Return a value without touching the world. -/
def M.pure {σ α : Type} (a : α) : M σ α := fun w => (.ret a, w)

/-- Sequencing; nothing runs after the process has exited. -/
def M.bind {σ α β : Type} (m : M σ α) (f : α → M σ β) : M σ β := fun w =>
  match m w with
  | (.ret a, w1) => f a w1
  | (.exit c, w1) => (.exit c, w1)

instance {σ : Type} : Monad (M σ) where
  pure := M.pure
  bind := M.bind

/-- Append an event to the trace. -/
def emit {σ : Type} (e : Event) : M σ Unit := fun w =>
  (.ret (), { w with trace := w.trace ++ [e] })

/-- Run a collaborator on the outside state. -/
def call {σ α : Type} (f : σ → α × σ) : M σ α := fun w =>
  ((.ret (f w.ext).1), { w with ext := (f w.ext).2 })

/-- The function `os.Exit`. -/
def osExit {σ α : Type} (code : Nat) : M σ α := fun w => (.exit code, w)

/-- A new backing array holding the bytes `b`. -/
def alloc {σ : Type} (b : List Nat) : M σ Slice := fun w =>
  (.ret (some w.heap.length), { w with heap := w.heap ++ [b] })

/-- The bytes a slice currently holds. -/
def bytesOf (heap : List (List Nat)) : Slice → List Nat
  | none => []
  | some a => heap.getD a []

/-- Read the bytes of a slice. -/
def readBytes {σ : Type} (s : Slice) : M σ (List Nat) := fun w =>
  (.ret (bytesOf w.heap s), w)

/-- The builtin `len` on a slice. -/
def len {σ : Type} (s : Slice) : M σ Nat := fun w =>
  (.ret (bytesOf w.heap s).length, w)

/-- Overwrite the first `n` bytes of an array with zero. -/
def zeroPrefix (n : Nat) (b : List Nat) : List Nat :=
  List.replicate (min n b.length) 0 ++ b.drop n

/-- Modelled from the spec: `ClearBytes` of package `common`, which lives
outside `wallet.go`; it is the explicit zeroing step, writing zero to
`arr[0] .. arr[n-1]`. -/
def ClearBytes {σ : Type} (arr : Slice) (n : Nat) : M σ Unit := fun w =>
  match arr with
  | none => (.ret (), w)
  | some a => (.ret (), { w with heap := w.heap.modify (zeroPrefix n) a })

/-- The function `fmt.Println`. -/
def Println {σ : Type} (args : List String) : M σ Unit := emit (.Println args)

/-- The function `fmt.Print`. -/
def Print {σ : Type} (args : List String) : M σ Unit := emit (.Print args)

/-! ## Go strings -/

/-- The function `strings.Contains` for a one-character substring. -/
def Contains (s : String) (sub : Char) : Bool := s.data.elem sub

/-- The fields of `s` between occurrences of `sep`; `cur` holds the current
field in reverse. -/
def splitChars (sep : Char) : List Char → List Char → List String
  | [], cur => [String.mk cur.reverse]
  | c :: cs, cur =>
    if c = sep then String.mk cur.reverse :: splitChars sep cs []
    else splitChars sep cs (c :: cur)

/-- The function `strings.Split` for a one-character separator. -/
def Split (s : String) (sep : Char) : List String := splitChars sep s.data []

/-- The function `unicode.IsSpace`. -/
def isSpace (c : Char) : Bool :=
  let n := c.toNat
  n = 0x09 || n = 0x0A || n = 0x0B || n = 0x0C || n = 0x0D || n = 0x20 ||
  n = 0x85 || n = 0xA0 || n = 0x1680 || (0x2000 ≤ n && n ≤ 0x200A) ||
  n = 0x2028 || n = 0x2029 || n = 0x202F || n = 0x205F || n = 0x3000

/-- The function `strings.TrimSpace`. -/
def TrimSpace (s : String) : String :=
  String.mk ((s.data.dropWhile isSpace).reverse.dropWhile isSpace).reverse

/-! ## Collaborators -/

/-- Everything `wallet.go` calls that lives in another package or another
file.  Pure helpers are functions of their arguments; the wallet, the key
store and the terminal read and update the outside state `σ`.  Password
slices are handed over by content: a collaborator reads the bytes. -/
structure Env (σ : Type) where
  HexStringToBytes : String → Except Foreign (List Nat)
  BytesToHexString : List Nat → String
  Fixed64String : Fixed64 → String
  ToAddress : Uint168 → String × Option Foreign
  ToArrayReverse : Uint168 → List Nat
  DecodePoint : List Nat → Except Foreign PubKey
  EncodePoint : PubKey → Bool → List Nat × Option Foreign
  GetPassword : σ → Except Foreign (List Nat) × σ
  GetConfirmedPassword : σ → Except Foreign (List Nat) × σ
  Create : List Nat → σ → Option Foreign × σ
  Open : σ → Option Foreign × σ
  OpenKeyStore : List Nat → σ → Option Foreign × σ
  GetProgramHash : σ → Uint168 × σ
  GetPublicKey : List Nat → σ → PubKey × σ
  ResetHeightCode : Nat
  VerifyPassword : List Nat → σ → Option Foreign × σ
  ChangePassword : List Nat → List Nat → σ → Option Foreign × σ
  AddStandardAddress : PubKey → σ → Except Foreign Uint168 × σ
  AddMultiSignAddress : List PubKey → σ → Except Foreign Uint168 × σ
  CurrentHeight : Nat → σ → Nat × σ
  SyncChainData : σ → Unit × σ
  GetAddresses : σ → Except Foreign (List Address) × σ
  GetAddressUTXOs : Uint168 → σ → Except Foreign (List UTXO) × σ
  Reset : σ → Option Foreign × σ
  createTransaction : Context → σ → Option Foreign × σ
  signTransaction : List Nat → Context → σ → Option Foreign × σ
  sendTransaction : Context → σ → Option Foreign × σ

/-! ## `wallet.go` -/

/-- What `printLine` writes: eighty times `fmt.Print("=")`, then `fmt.Println()`. -/
def lineEvents : List Event := List.replicate 80 (.Print ["="]) ++ [.Println []]

/-- The function `printLine`. -/
def printLine {σ : Type} : M σ Unit := fun w =>
  (.ret (), { w with trace := w.trace ++ lineEvents })

/-- The key-decoding loop of the multi-sign branch of `addAccount`
(lines 65-76): `keys` is the list built so far. -/
def decodeKeys {σ : Type} (env : Env σ) : List String → List PubKey → Except Foreign (List PubKey)
  | [], keys => .ok keys
  | v :: vs, keys =>
    match env.HexStringToBytes (TrimSpace v) with
    | .error err => .error err
    | .ok keyBytes =>
      match env.DecodePoint keyBytes with
      | .error err => .error err
      | .ok publicKey => decodeKeys env vs (keys ++ [publicKey])

/-- The tail of `addAccount` (lines 87-91): reset the height, sync, return nil. -/
def syncAfterAdd {σ : Type} (env : Env σ) : M σ (Option GoError) := do
  let _ ← call (env.CurrentHeight env.ResetHeightCode)
  emit (.CurrentHeight env.ResetHeightCode)
  call env.SyncChainData
  emit .SyncChainData
  pure none

/-- The function `addAccount`. -/
def addAccount {σ : Type} (env : Env σ) (content : String) : M σ (Option GoError) :=
  if !Contains content ',' then
    match env.HexStringToBytes (TrimSpace content) with
    | .error err => pure (some (.foreign err))
    | .ok keyBytes =>
      match env.DecodePoint keyBytes with
      | .error err => pure (some (.foreign err))
      | .ok publicKey => do
        let r ← call (env.AddStandardAddress publicKey)
        emit (.AddStandardAddress publicKey r.toBool)
        match r with
        | .error err => pure (some (.foreign err))
        | .ok programHash =>
          match env.ToAddress programHash with
          | (_, some err) => pure (some (.foreign err))
          | (address, none) => do
            Println [address]
            syncAfterAdd env
  else
    let publicKeys := Split content ','
    if publicKeys.length < MinMultiSignKeys then
      pure (some (.New "public keys is not enough"))
    else
      match decodeKeys env publicKeys [] with
      | .error err => pure (some (.foreign err))
      | .ok keys => do
        let r ← call (env.AddMultiSignAddress keys)
        emit (.AddMultiSignAddress keys r.toBool)
        match r with
        | .error err => pure (some (.foreign err))
        | .ok programHash =>
          match env.ToAddress programHash with
          | (_, some err) => pure (some (.foreign err))
          | (address, none) => do
            Println [address]
            syncAfterAdd env

/-- The function `getPassword`: a non-empty `passwd` is handed back as it is
(the conversion `[]byte(passwd)` of a byte slice keeps the backing array);
otherwise the terminal is asked, and a failure there ends the process. -/
def getPassword {σ : Type} (env : Env σ) (passwd : Slice) (confirmed : Bool) : M σ Slice := do
  let n ← len passwd
  if n > 0 then
    pure passwd
  else if confirmed then do
    let r ← call env.GetConfirmedPassword
    match r with
    | .error err => do
      emit (.GetConfirmedPassword none)
      Println [err.text]
      osExit 1
    | .ok b => do
      let tmp ← alloc b
      emit (.GetConfirmedPassword (some tmp))
      pure tmp
  else do
    let r ← call env.GetPassword
    match r with
    | .error err => do
      emit (.GetPassword none)
      Println [err.text]
      osExit 1
    | .ok b => do
      let tmp ← alloc b
      emit (.GetPassword (some tmp))
      pure tmp

/-- The function `showAccountInfo`.  The deferred `ClearBytes` is registered
right after `getPassword`, so it runs on both ways out of the body. -/
def showAccountInfo {σ : Type} (env : Env σ) (password : Slice) : M σ (Option GoError) := do
  let password ← getPassword env password false
  let n ← len password
  let result ← (do
    let pw ← readBytes password
    let err ← call (env.OpenKeyStore pw)
    emit (.OpenKeyStore password err.isNone)
    match err with
    | some e => pure (some (GoError.foreign e))
    | none => do
      let programHash ← call env.GetProgramHash
      let address := (env.ToAddress programHash).1
      let pw ← readBytes password
      let publicKey ← call (env.GetPublicKey pw)
      emit (.GetPublicKey password)
      let publicKeyBytes := (env.EncodePoint publicKey true).1
      printLine
      Println ["Address:     ", address]
      Println ["Public Key:  ", env.BytesToHexString publicKeyBytes]
      Println ["ProgramHash: ", env.BytesToHexString (env.ToArrayReverse programHash)]
      printLine
      pure none)
  ClearBytes password n
  pure result

/-- The function `createWallet`.  The deferred `ClearBytes` is bound to the
argument `password`, not to the slice `getPassword` hands to `walt.Create`. -/
def createWallet {σ : Type} (env : Env σ) (password : Slice) : M σ (Option GoError) := do
  let n ← len password
  let result ← (do
    let passwd ← getPassword env password true
    let pw ← readBytes passwd
    let err ← call (env.Create pw)
    emit (.Create passwd err.isNone)
    match err with
    | some e => pure (some (GoError.foreign e))
    | none => showAccountInfo env password)
  ClearBytes password n
  pure result

/-- The function `changePassword`.  Each deferred `ClearBytes` is registered
only after the error check that precedes it; the deferred calls run last in,
first out. -/
def changePassword {σ : Type} (env : Env σ) (password : Slice) : M σ (Option GoError) := do
  let oldPassword ← getPassword env password false
  let old ← readBytes oldPassword
  let err ← call (env.VerifyPassword old)
  emit (.VerifyPassword oldPassword err.isNone)
  match err with
  | some e => pure (some (GoError.foreign e))
  | none => do
    let n ← len oldPassword
    let result ← (do
      Println ["# input new password #"]
      let newPassword ← getPassword env none true
      let old ← readBytes oldPassword
      let new ← readBytes newPassword
      let err ← call (env.ChangePassword old new)
      emit (.ChangePassword oldPassword newPassword err.isNone)
      match err with
      | some _ => pure (some (GoError.New "failed to change password"))
      | none => do
        let m ← len newPassword
        Println ["password changed successful"]
        ClearBytes newPassword m
        pure none)
    ClearBytes oldPassword n
    pure result

/-- The sum loop of `listBalanceInfo` (lines 153-155). -/
def sumAmounts (UTXOs : List UTXO) : Fixed64 :=
  UTXOs.foldl (fun balance utxo => addFixed64 balance utxo.Amount) 0

/-- The address loop of `listBalanceInfo` (lines 146-161). -/
def balanceLoop {σ : Type} (env : Env σ) : List Address → M σ (Option GoError)
  | [] => pure none
  | address :: rest => do
    let r ← call (env.GetAddressUTXOs address.ProgramHash)
    emit (.GetAddressUTXOs address.ProgramHash r.toOption)
    match r with
    | .error _ => pure (some (GoError.New ("get " ++ address.Address ++ " UTXOs failed")))
    | .ok UTXOs => do
      let balance := sumAmounts UTXOs
      Println ["Address:     ", address.Address]
      Println ["ProgramHash: ", env.BytesToHexString (env.ToArrayReverse address.ProgramHash)]
      Println ["Balance:     ", env.Fixed64String balance]
      printLine
      balanceLoop env rest

/-- The function `listBalanceInfo`. -/
def listBalanceInfo {σ : Type} (env : Env σ) : M σ (Option GoError) := do
  call env.SyncChainData
  emit .SyncChainData
  let r ← call env.GetAddresses
  emit (.GetAddresses r.toBool)
  match r with
  | .error err => do
    emit (.logError ["Get addresses error:", err.text])
    pure (some (GoError.New "get wallet addresses failed"))
  | .ok addresses => do
    printLine
    balanceLoop env addresses

/-- The bytes of a Go string (its UTF-8 encoding), as `[]byte(s)` yields. -/
def stringBytes (s : String) : List Nat :=
  s.data.flatMap (fun c => (String.utf8EncodeChar c).map UInt8.toNat)

/-- The function `cli.ShowCommandHelpAndExit`. -/
def ShowCommandHelpAndExit {σ α : Type} (command : String) (code : Nat) : M σ α := do
  emit (.ShowCommandHelp command)
  osExit code

/-- The transaction branch of `walletAction` (lines 243-264). -/
def transactionAction {σ : Type} (env : Env σ) (context : Context) (param : String) : M σ Unit :=
  if param = "create" then do
    let err ← call (env.createTransaction context)
    emit (.createTransaction err.isNone)
    match err with
    | some e => do
      Println ["error:", e.text]
      osExit 701
    | none => pure ()
  else if param = "sign" then do
    let buf ← alloc (stringBytes context.password)
    let pw ← readBytes buf
    let err ← call (env.signTransaction pw context)
    emit (.signTransaction buf err.isNone)
    match err with
    | some e => do
      Println ["error:", e.text]
      osExit 702
    | none => pure ()
  else if param = "send" then do
    let err ← call (env.sendTransaction context)
    emit (.sendTransaction err.isNone)
    match err with
    | some e => do
      Println ["error:", e.text]
      osExit 703
    | none => pure ()
  else
    ShowCommandHelpAndExit "transaction" 700

/-- The part of `walletAction` after the wallet has been opened (lines 206-275). -/
def openedAction {σ : Type} (env : Env σ) (context : Context) : M σ Unit :=
  let pass := context.password
  if context.account then do
    let buf ← alloc (stringBytes pass)
    let err ← showAccountInfo env buf
    match err with
    | some e => do
      Println ["error: show account info failed, ", e.Error]
      ShowCommandHelpAndExit "account" 3
    | none => pure ()
  else if context.changepassword then do
    let buf ← alloc (stringBytes pass)
    let err ← changePassword env buf
    match err with
    | some e => do
      Println ["error: change password failed, ", e.Error]
      ShowCommandHelpAndExit "changepassword" 4
    | none => pure ()
  else if context.addaccount ≠ "" then do
    let err ← addAccount env context.addaccount
    match err with
    | some e => do
      Println ["error: add multi sign account failed, ", e.Error]
      ShowCommandHelpAndExit "addaccount" 5
    | none => pure ()
  else if context.balance then do
    let err ← listBalanceInfo env
    match err with
    | some e => do
      Println ["error: list balance info failed, ", e.Error]
      ShowCommandHelpAndExit "balance" 6
    | none => pure ()
  else if context.transaction ≠ "" then
    transactionAction env context context.transaction
  else if context.reset then do
    let err ← call env.Reset
    emit (.Reset err.isNone)
    match err with
    | some e => do
      Println ["error: reset wallet data store failed, ", e.text]
      ShowCommandHelpAndExit "reset" 8
    | none => Println ["wallet data store was reset successfully"]
  else
    pure ()

/-- The function `walletAction`. -/
def walletAction {σ : Type} (env : Env σ) (context : Context) : M σ Unit :=
  if context.NumFlags = 0 then do
    emit .ShowSubcommandHelp
    osExit 0
  else if context.create then do
    let buf ← alloc (stringBytes context.password)
    let err ← createWallet env buf
    match err with
    | some e => do
      Println ["error: create wallet failed, ", e.Error]
      ShowCommandHelpAndExit "create" 1
    | none => pure ()
  else do
    let err ← call env.Open
    emit (.Open err.isNone)
    match err with
    | some e => do
      Println ["error: open wallet failed, ", e.text]
      osExit 2
    | none => openedAction env context

/-! ## A simulated outside, used to run the code on concrete inputs -/

/-- State of the simulated outside. -/
structure Sim where
  answers : List (List Nat)
  secret : List Nat
  writable : Bool
  accounts : List (List PubKey)
  addresses : List Address
  utxos : List (Uint168 × List UTXO)
  deriving DecidableEq, Repr

/-- Value of a hexadecimal digit. -/
def hexVal (c : Char) : Option Nat :=
  if '0' ≤ c ∧ c ≤ '9' then some (c.toNat - '0'.toNat)
  else if 'a' ≤ c ∧ c ≤ 'f' then some (c.toNat - 'a'.toNat + 10)
  else if 'A' ≤ c ∧ c ≤ 'F' then some (c.toNat - 'A'.toNat + 10)
  else none

/-- Decode pairs of hexadecimal digits. -/
def hexDecode : List Char → Except Foreign (List Nat)
  | [] => .ok []
  | [_] => .error ⟨"encoding/hex: odd length hex string"⟩
  | a :: b :: rest =>
    match hexVal a, hexVal b, hexDecode rest with
    | some x, some y, .ok bs => .ok ((16 * x + y) :: bs)
    | some _, some _, .error e => .error e
    | _, _, _ => .error ⟨"encoding/hex: invalid byte"⟩

/-- Big-endian value of a byte string. -/
def beValue (bs : List Nat) : Int := bs.foldl (fun acc b => 256 * acc + (b : Int)) 0

/-- A stand-in for `crypto.DecodePoint`: a compressed point is the tag 2 or 3
followed by the bytes of `X`. -/
def simDecodePoint : List Nat → Except Foreign PubKey
  | 2 :: x => if x = [] then .error ⟨"invalid encoded point"⟩ else .ok ⟨beValue x, 0⟩
  | 3 :: x => if x = [] then .error ⟨"invalid encoded point"⟩ else .ok ⟨beValue x, 1⟩
  | _ => .error ⟨"invalid encoded point"⟩

/-- Decimal digits of a natural number, with explicit fuel. -/
def natDigits : Nat → Nat → List Char
  | 0, _ => []
  | fuel + 1, n =>
    if n < 10 then [Char.ofNat (48 + n)]
    else natDigits fuel (n / 10) ++ [Char.ofNat (48 + n % 10)]

/-- Decimal rendering of the raw value of an amount. -/
def simFixed64String (v : Fixed64) : String :=
  if v < 0 then String.mk ('-' :: natDigits 20 v.natAbs) else String.mk (natDigits 20 v.natAbs)

/-- The program hash the simulated wallet gives to a key list. -/
def simHash (keys : List PubKey) : Uint168 := keys.map (fun k => k.X.natAbs % 256)

/-- The next answer typed at the simulated terminal. -/
def simPrompt (s : Sim) : Except Foreign (List Nat) × Sim :=
  match s.answers with
  | [] => (.error ⟨"EOF"⟩, s)
  | a :: rest => (.ok a, { s with answers := rest })

/-- A simulated outside: a wallet that checks the password against `secret`,
refuses writes unless `writable`, and serves addresses and UTXOs from tables. -/
def simEnv : Env Sim where
  HexStringToBytes := fun s => hexDecode s.data
  BytesToHexString := fun bs => String.mk (bs.map (fun b => Char.ofNat (97 + b % 26)))
  Fixed64String := simFixed64String
  ToAddress := fun h => (String.mk (h.map (fun b => Char.ofNat (65 + b % 26))), none)
  ToArrayReverse := List.reverse
  DecodePoint := simDecodePoint
  EncodePoint := fun k _ => ([2 + k.Y.natAbs % 2, k.X.natAbs % 256], none)
  GetPassword := simPrompt
  GetConfirmedPassword := simPrompt
  Create := fun pw s =>
    if s.writable then (none, { s with secret := pw }) else (some ⟨"create keystore failed"⟩, s)
  Open := fun s => (none, s)
  OpenKeyStore := fun pw s => if pw = s.secret then (none, s) else (some ⟨"password wrong"⟩, s)
  GetProgramHash := fun s => ([1, 2, 3], s)
  GetPublicKey := fun _ s => (⟨7, 0⟩, s)
  ResetHeightCode := 0
  VerifyPassword := fun pw s => if pw = s.secret then (none, s) else (some ⟨"password wrong"⟩, s)
  ChangePassword := fun _ new s =>
    if s.writable then (none, { s with secret := new }) else (some ⟨"store is read only"⟩, s)
  AddStandardAddress := fun k s =>
    if s.writable then (.ok (simHash [k]), { s with accounts := s.accounts ++ [[k]] })
    else (.error ⟨"store is read only"⟩, s)
  AddMultiSignAddress := fun ks s =>
    if s.writable then (.ok (simHash ks), { s with accounts := s.accounts ++ [ks] })
    else (.error ⟨"store is read only"⟩, s)
  CurrentHeight := fun _ s => (0, s)
  SyncChainData := fun s => ((), s)
  GetAddresses := fun s => (.ok s.addresses, s)
  GetAddressUTXOs := fun h s =>
    match s.utxos.lookup h with
    | some us => (.ok us, s)
    | none => (.error ⟨"no such address"⟩, s)
  Reset := fun s => if s.writable then (none, s) else (some ⟨"store is read only"⟩, s)
  createTransaction := fun _ s => (none, s)
  signTransaction := fun _ _ s => (none, s)
  sendTransaction := fun _ s => (none, s)

/-- A simulated outside whose `ToAddress` fails. -/
def simEnvBadAddress : Env Sim := { simEnv with ToAddress := fun _ => ("", some ⟨"encode failed"⟩) }

/-- An empty, writable simulated wallet whose password is `abc`. -/
def sim0 : Sim :=
  { answers := [], secret := [97, 98, 99], writable := true, accounts := [], addresses := [], utxos := [] }

/-- A world around a simulated outside, with the given buffers. -/
def simWorld (s : Sim) (heap : List (List Nat)) : World Sim := { ext := s, heap := heap, trace := [] }

/-- A simulated wallet whose store refuses writes; the terminal will answer `new`. -/
def simReadOnly : Sim := { sim0 with answers := [[110, 101, 119]], writable := false }

/-- A simulated wallet at whose terminal `pw` is typed twice. -/
def simTyped : Sim := { sim0 with answers := [[112, 119], [112, 119]] }

/-- A simulated wallet at whose terminal `pw` is typed, and whose store refuses writes. -/
def simTypedReadOnly : Sim := { sim0 with answers := [[112, 119]], writable := false }

/-- The flags of `ela-cli wallet --addaccount 0201`. -/
def ctxAddAccount : Context :=
  { NumFlags := 1, password := "", create := false, account := false, changepassword := false,
    addaccount := "0201", balance := false, transaction := "", reset := false }

/-- A simulated wallet with two addresses: `A` owns amounts 5 and 7, `B` owns nothing. -/
def simTwoAddresses : Sim :=
  { sim0 with
    addresses := [⟨"A", [1]⟩, ⟨"B", [2]⟩]
    utxos := [([1], [⟨5⟩, ⟨7⟩]), ([2], [])] }

/-- A simulated wallet with two addresses: `A` owns the largest `int64` and 2,
`B` owns 3. -/
def simLargeAndSmall : Sim :=
  { sim0 with
    addresses := [⟨"A", [1]⟩, ⟨"B", [2]⟩]
    utxos := [([1], [⟨9223372036854775807⟩, ⟨2⟩]), ([2], [⟨3⟩])] }

/-- A simulated wallet with one address owning the largest `int64` and 1. -/
def simOverflow : Sim :=
  { sim0 with
    addresses := [⟨"A", [1]⟩]
    utxos := [([1], [⟨9223372036854775807⟩, ⟨1⟩])] }

/-! ## Reading a trace -/

/-- What one field of the key list decodes to: `crypto.DecodePoint` applied to
`HexStringToBytes` of the field with surrounding white space trimmed. -/
def keyOf {σ : Type} (env : Env σ) (v : String) : Except Foreign PubKey :=
  match env.HexStringToBytes (TrimSpace v) with
  | .error err => .error err
  | .ok keyBytes => env.DecodePoint keyBytes

/-- The program hashes `wallet.GetAddressUTXOs` was asked for, in order. -/
def asked (tr : List Event) : List Uint168 :=
  tr.filterMap fun e => match e with
    | .GetAddressUTXOs h _ => some h
    | _ => none

/-- The successful answers of `wallet.GetAddressUTXOs`, in order, each with the
program hash it was asked for. -/
def fetched (tr : List Event) : List (Uint168 × List UTXO) :=
  tr.filterMap fun e => match e with
    | .GetAddressUTXOs h (some us) => some (h, us)
    | _ => none

/-- The balances written on the `Balance:` lines, in order. -/
def reported (tr : List Event) : List String :=
  tr.filterMap fun e => match e with
    | .Println ["Balance:     ", b] => some b
    | _ => none

/-- The sum of the amounts of a UTXO list, as an integer. -/
def exactSum (us : List UTXO) : Int := (us.map UTXO.Amount).sum

/-- Whether an event is a write to standard output. -/
def Event.isOutput : Event → Bool
  | .Print _ => true
  | .Println _ => true
  | _ => false

/-- The calls to collaborators in a trace, output left out. -/
def calls (tr : List Event) : List Event := tr.filter (fun e => !e.isOutput)

/-- Whether an event is a call of `wallet.ChangePassword`. -/
def Event.isChangePassword : Event → Bool
  | .ChangePassword _ _ _ => true
  | _ => false

/-- Whether an event is a password being checked against the key store:
`wallet.VerifyPassword` or `walt.OpenKeyStore`. -/
def Event.isPasswordCheck : Event → Bool
  | .VerifyPassword _ _ => true
  | .OpenKeyStore _ _ => true
  | _ => false

/-- Scan of a trace: no `wallet.ChangePassword` occurs unless a successful
`wallet.VerifyPassword` occurred before it; `verified` tells whether one
already has. -/
def gated : Bool → List Event → Bool
  | _, [] => true
  | _, .VerifyPassword _ true :: es => gated true es
  | verified, .ChangePassword _ _ _ :: es => verified && gated verified es
  | verified, _ :: es => gated verified es

/-- Every event the body adds to the trace satisfies `P`, and the body only
adds to the trace. -/
def Emits {σ α : Type} (P : Event → Prop) (m : M σ α) : Prop :=
  ∀ w, ∃ new, (m w).2.trace = w.trace ++ new ∧ ∀ e ∈ new, P e

/-- The events the body adds to the trace pass the scan `gated`. -/
def Gated {σ α : Type} (verified : Bool) (m : M σ α) : Prop :=
  ∀ w, ∃ new, (m w).2.trace = w.trace ++ new ∧ gated verified new = true

/-! ## Running the world transformers -/

section Run

variable {σ α β : Type}

@[simp] theorem pure_run (a : α) (w : World σ) : (pure a : M σ α) w = (.ret a, w) := rfl

@[simp] theorem bind_run (m : M σ α) (f : α → M σ β) (w : World σ) :
    (m >>= f) w = match m w with
      | (.ret a, w1) => f a w1
      | (.exit c, w1) => (.exit c, w1) := rfl

@[simp] theorem emit_run (e : Event) (w : World σ) :
    emit e w = (.ret (), { w with trace := w.trace ++ [e] }) := rfl

@[simp] theorem call_run (f : σ → α × σ) (w : World σ) :
    call f w = (.ret (f w.ext).1, { w with ext := (f w.ext).2 }) := rfl

@[simp] theorem osExit_run (code : Nat) (w : World σ) :
    (osExit code : M σ α) w = (.exit code, w) := rfl

@[simp] theorem alloc_run (b : List Nat) (w : World σ) :
    alloc b w = (.ret (some w.heap.length), { w with heap := w.heap ++ [b] }) := rfl

@[simp] theorem readBytes_run (s : Slice) (w : World σ) :
    readBytes s w = (.ret (bytesOf w.heap s), w) := rfl

@[simp] theorem len_run (s : Slice) (w : World σ) :
    len s w = (.ret (bytesOf w.heap s).length, w) := rfl

@[simp] theorem Println_run (args : List String) (w : World σ) :
    Println args w = (.ret (), { w with trace := w.trace ++ [.Println args] }) := rfl

@[simp] theorem printLine_run (w : World σ) :
    printLine w = (.ret (), { w with trace := w.trace ++ lineEvents }) := rfl

end Run

/-! ## `addAccount` -/

section AddAccount

variable {σ : Type}

theorem splitChars_length (sep : Char) (cs : List Char) :
    ∀ cur : List Char, (splitChars sep cs cur).length = cs.count sep + 1 := by
  induction cs with
  | nil => intro cur; simp [splitChars]
  | cons c cs ih =>
    intro cur
    by_cases h : c = sep
    · simp [splitChars, h, ih]
    · simp [splitChars, h, ih, List.count_cons]

/-- `strings.Split` yields one field more than there are separators. -/
theorem Split_length (s : String) (sep : Char) : (Split s sep).length = s.data.count sep + 1 :=
  splitChars_length sep s.data []

/-- A string that splits into two fields or more contains the separator. -/
theorem Contains_of_two_fields (s : String) (sep : Char) (h : 2 ≤ (Split s sep).length) :
    Contains s sep = true := by
  rw [Split_length] at h
  have hpos : 0 < s.data.count sep := by omega
  have hmem : sep ∈ s.data := List.count_pos_iff.mp hpos
  simpa [Contains] using hmem

theorem decodeKeys_of_all_ok (env : Env σ) (vs : List String) :
    ∀ acc : List PubKey, (∀ v ∈ vs, (keyOf env v).toBool = true) →
      ∃ ks, decodeKeys env vs acc = .ok (acc ++ ks) ∧ vs.map (keyOf env) = ks.map Except.ok := by
  induction vs with
  | nil => intro acc _; exact ⟨[], by simp [decodeKeys], rfl⟩
  | cons v vs ih =>
    intro acc h
    have hv := h v (List.mem_cons_self _ _)
    have hrest : ∀ u ∈ vs, (keyOf env u).toBool = true :=
      fun u hu => h u (List.mem_cons_of_mem _ hu)
    unfold keyOf at hv
    cases hx : env.HexStringToBytes (TrimSpace v) with
    | error e => simp [hx, Except.toBool] at hv
    | ok b =>
      cases hd : env.DecodePoint b with
      | error e => simp [hx, hd, Except.toBool] at hv
      | ok k =>
        obtain ⟨ks, h1, h2⟩ := ih (acc ++ [k]) hrest
        refine ⟨k :: ks, ?_, ?_⟩
        · simp [decodeKeys, hx, hd, h1]
        · simp [keyOf, hx, hd, h2]

theorem decodeKeys_of_some_bad (env : Env σ) (vs : List String) :
    ∀ acc : List PubKey, (∃ v ∈ vs, (keyOf env v).toBool = false) →
      ∃ e, decodeKeys env vs acc = .error e := by
  induction vs with
  | nil => intro acc h; obtain ⟨v, hv, _⟩ := h; simp at hv
  | cons v vs ih =>
    intro acc h
    cases hx : env.HexStringToBytes (TrimSpace v) with
    | error e => exact ⟨e, by simp [decodeKeys, hx]⟩
    | ok b =>
      cases hd : env.DecodePoint b with
      | error e => exact ⟨e, by simp [decodeKeys, hx, hd]⟩
      | ok k =>
        obtain ⟨u, hu, hbad⟩ := h
        rcases List.mem_cons.mp hu with rfl | hu
        · simp [keyOf, hx, hd, Except.toBool] at hbad
        · obtain ⟨e, he⟩ := ih (acc ++ [k]) ⟨u, hu, hbad⟩
          exact ⟨e, by simp [decodeKeys, hx, hd, he]⟩

/-- C3.  `addAccount` returns the error built on line 63 ("public keys is not
enough") exactly when `content` contains a comma and `strings.Split(content,
",")` yields fewer than `MinMultiSignKeys` fields; in particular a content
without a comma never gets it. -/
theorem addAccount_insufficient_keys_iff (env : Env σ) (content : String) (w : World σ) :
    (addAccount env content w).1 = .ret (some (.New "public keys is not enough")) ↔
      (Contains content ',' = true ∧ (Split content ',').length < MinMultiSignKeys) := by
  unfold addAccount
  by_cases hc : Contains content ',' = true
  · by_cases hl : (Split content ',').length < MinMultiSignKeys
    · simp [hc, hl]
    · simp only [hc, hl, Bool.not_true, Bool.false_eq_true, if_false, and_false, iff_false]
      cases hd : decodeKeys env (Split content ',') [] with
      | error e => simp
      | ok keys =>
        simp only [bind_run, call_run, emit_run]
        cases hr : (env.AddMultiSignAddress keys w.ext).1 with
        | error e => simp
        | ok programHash =>
          rcases hta : env.ToAddress programHash with ⟨address, _ | err⟩
          · simp [hta, syncAfterAdd]
          · simp [hta]
  · have hc1 : Contains content ',' = false := by simpa using hc
    simp only [hc1, Bool.not_false, if_true, Bool.false_eq_true, false_and, iff_false]
    cases hx : env.HexStringToBytes (TrimSpace content) with
    | error e => simp
    | ok keyBytes =>
      cases hd : env.DecodePoint keyBytes with
      | error e => simp [hd]
      | ok publicKey =>
        cases hr : (env.AddStandardAddress publicKey w.ext).1 with
        | error e => simp [hd, hr]
        | ok programHash =>
          rcases hta : env.ToAddress programHash with ⟨address, _ | err⟩
          · simp [hd, hr, hta, syncAfterAdd]
          · simp [hd, hr, hta]

/-- The trace of the multi-sign branch once every field has decoded: the
first new event is the call of `wallet.AddMultiSignAddress` with the decoded
list; what follows depends on the wallet and on `ToAddress`. -/
theorem addAccount_multiSign_trace (env : Env σ) (content : String) (w : World σ)
    (hc : Contains content ',' = true)
    (hl : MinMultiSignKeys ≤ (Split content ',').length)
    (keys : List PubKey) (hd : decodeKeys env (Split content ',') [] = .ok keys) :
    ∃ rest, (addAccount env content w).2.trace =
        w.trace ++ .AddMultiSignAddress keys (env.AddMultiSignAddress keys w.ext).1.toBool :: rest ∧
      ∀ e ∈ rest, ∀ ks b, e ≠ .AddMultiSignAddress ks b := by
  have hl1 : ¬ (Split content ',').length < MinMultiSignKeys := Nat.not_lt.mpr hl
  unfold addAccount
  simp only [hc, hl1, hd, Bool.not_true, Bool.false_eq_true, if_false]
  cases hr : (env.AddMultiSignAddress keys w.ext).1 with
  | error e => exact ⟨[], by simp [hr], by simp⟩
  | ok programHash =>
    rcases hta : env.ToAddress programHash with ⟨address, _ | err⟩
    · exact ⟨[.Println [address], .CurrentHeight env.ResetHeightCode, .SyncChainData],
        by simp [hr, hta, syncAfterAdd], by simp⟩
    · exact ⟨[], by simp [hr, hta], by simp⟩

/-- C4.  Validation comes before any wallet call: when `content` has no comma
and does not decode to a key, or has a comma and either fewer than
`MinMultiSignKeys` fields or some field (the last one included) that does not
decode, `addAccount` returns an error and leaves the whole world as it was:
the wallet state is unchanged and no call has been added to the trace. -/
theorem addAccount_validates_before_wallet (env : Env σ) (content : String) (w : World σ)
    (h : (Contains content ',' = false ∧ (keyOf env content).toBool = false) ∨
      (Contains content ',' = true ∧
        ((Split content ',').length < MinMultiSignKeys ∨
          ∃ v ∈ Split content ',', (keyOf env v).toBool = false))) :
    ∃ e, addAccount env content w = (.ret (some e), w) := by
  unfold addAccount
  rcases h with ⟨hc, hk⟩ | ⟨hc, hl | hbad⟩
  · simp only [hc, Bool.not_false, if_true]
    unfold keyOf at hk
    cases hx : env.HexStringToBytes (TrimSpace content) with
    | error e => exact ⟨_, rfl⟩
    | ok keyBytes =>
      cases hd : env.DecodePoint keyBytes with
      | error e => exact ⟨.foreign e, by simp [hd]⟩
      | ok k => simp [hx, hd, Except.toBool] at hk
  · exact ⟨.New "public keys is not enough", by simp [hc, hl]⟩
  · by_cases hl : (Split content ',').length < MinMultiSignKeys
    · exact ⟨.New "public keys is not enough", by simp [hc, hl]⟩
    · obtain ⟨e, he⟩ := decodeKeys_of_some_bad env (Split content ',') [] hbad
      exact ⟨.foreign e, by simp [hc, hl, he]⟩

/-- C4, on an input: a list of three fields whose last field is not hex. -/
theorem addAccount_validates_before_wallet_witness :
    ∃ e, addAccount simEnv "0201,0302,zz" (simWorld sim0 []) = (.ret (some e), simWorld sim0 []) :=
  addAccount_validates_before_wallet simEnv "0201,0302,zz" (simWorld sim0 [])
    (Or.inr ⟨by decide, Or.inr ⟨"zz", by decide, by decide⟩⟩)

/-- Whenever `addAccount` returns nil, the last two calls it made are
`wallet.CurrentHeight(ResetHeightCode)` and `wallet.SyncChainData`. -/
theorem addAccount_nil_ends_with_sync (env : Env σ) (content : String) (w : World σ)
    (h : (addAccount env content w).1 = .ret none) :
    ∃ pre, (addAccount env content w).2.trace =
      w.trace ++ pre ++ [.CurrentHeight env.ResetHeightCode, .SyncChainData] := by
  unfold addAccount at h ⊢
  by_cases hc : Contains content ',' = true
  · by_cases hl : (Split content ',').length < MinMultiSignKeys
    · simp [hc, hl] at h
    · simp only [hc, hl, Bool.not_true, Bool.false_eq_true, if_false] at h ⊢
      cases hd : decodeKeys env (Split content ',') [] with
      | error e => simp [hd] at h
      | ok keys =>
        cases hr : (env.AddMultiSignAddress keys w.ext).1 with
        | error e => simp [hd, hr] at h
        | ok programHash =>
          rcases hta : env.ToAddress programHash with ⟨address, _ | err⟩
          · exact ⟨[.AddMultiSignAddress keys true, .Println [address]],
              by simp [hd, hr, hta, syncAfterAdd, Except.toBool]⟩
          · simp [hd, hr, hta] at h
  · have hc1 : Contains content ',' = false := by simpa using hc
    simp only [hc1, Bool.not_false, if_true] at h ⊢
    cases hx : env.HexStringToBytes (TrimSpace content) with
    | error e => simp [hx] at h
    | ok keyBytes =>
      cases hd : env.DecodePoint keyBytes with
      | error e => simp [hx, hd] at h
      | ok publicKey =>
        cases hr : (env.AddStandardAddress publicKey w.ext).1 with
        | error e => simp [hx, hd, hr] at h
        | ok programHash =>
          rcases hta : env.ToAddress programHash with ⟨address, _ | err⟩
          · exact ⟨[.AddStandardAddress publicKey true, .Println [address]],
              by simp [hd, hr, hta, syncAfterAdd, Except.toBool]⟩
          · simp [hx, hd, hr, hta] at h

/-- C5.  With a key that decodes, a wallet that accepts it and a `ToAddress`
that fails, `addAccount` returns the error right after
`wallet.AddStandardAddress`: the account is in the wallet, and neither
`wallet.CurrentHeight` nor `wallet.SyncChainData` has been called. -/
theorem addAccount_added_without_sync :
    (addAccount simEnvBadAddress "0201" (simWorld sim0 [])).1
        = .ret (some (.foreign ⟨"encode failed"⟩)) ∧
      (addAccount simEnvBadAddress "0201" (simWorld sim0 [])).2.trace
        = [.AddStandardAddress ⟨1, 0⟩ true] ∧
      (addAccount simEnvBadAddress "0201" (simWorld sim0 [])).2.ext.accounts = [[⟨1, 0⟩]] := by
  decide

/-- C9, as stated, fails: the same valid key three times is handed to
`wallet.AddMultiSignAddress` with its duplicates. -/
theorem addAccount_passes_duplicate_keys :
    (addAccount simEnv "0201,0201,0201" (simWorld sim0 [])).2.trace.head?
        = some (.AddMultiSignAddress [⟨1, 0⟩, ⟨1, 0⟩, ⟨1, 0⟩] true) ∧
      ¬ ([⟨1, 0⟩, ⟨1, 0⟩, ⟨1, 0⟩] : List PubKey).Nodup := by
  decide

/-- C9, amended.  `addAccount` has no duplicate check: whenever `content` has
at least `MinMultiSignKeys` comma-separated fields and every field decodes,
`wallet.AddMultiSignAddress` is called, and the list it receives is free of
duplicates exactly when the fields decode to pairwise different keys. -/
theorem addAccount_keeps_duplicates (env : Env σ) (content : String) (w : World σ)
    (hl : MinMultiSignKeys ≤ (Split content ',').length)
    (hk : ∀ v ∈ Split content ',', (keyOf env v).toBool = true) :
    ∃ keys ok rest,
      (addAccount env content w).2.trace = w.trace ++ .AddMultiSignAddress keys ok :: rest ∧
      (keys.Nodup ↔ ((Split content ',').map (keyOf env)).Nodup) := by
  have hc : Contains content ',' = true :=
    Contains_of_two_fields content ',' (le_trans (by decide) hl)
  obtain ⟨ks, h1, h2⟩ := decodeKeys_of_all_ok env (Split content ',') [] hk
  obtain ⟨rest, h3, _⟩ := addAccount_multiSign_trace env content w hc hl ([] ++ ks) h1
  refine ⟨[] ++ ks, _, rest, h3, ?_⟩
  rw [h2, List.nil_append]
  refine (List.nodup_map_iff ?_).symm
  intro a b hab
  exact Except.ok.inj hab

/-- C9, amended, on an input: three times the same key. -/
theorem addAccount_keeps_duplicates_witness :
    ∃ keys ok rest,
      (addAccount simEnv "0201,0201,0201" (simWorld sim0 [])).2.trace
        = (simWorld sim0 []).trace ++ .AddMultiSignAddress keys ok :: rest ∧
      (keys.Nodup ↔ ((Split "0201,0201,0201" ',').map (keyOf simEnv)).Nodup) :=
  addAccount_keeps_duplicates simEnv "0201,0201,0201" (simWorld sim0 [])
    (by decide) (by decide)

/-- C10.  In the multi-sign branch, when `content` has at least
`MinMultiSignKeys` fields and every field decodes, the first call made is
`wallet.AddMultiSignAddress`, it is the only such call, and the list it
receives has one key per field, in the order of the fields, the i-th key being
`DecodePoint (HexStringToBytes (TrimSpace field_i))`, which is `keyOf`. -/
theorem addAccount_keys_in_field_order (env : Env σ) (content : String) (w : World σ)
    (hl : MinMultiSignKeys ≤ (Split content ',').length)
    (hk : ∀ v ∈ Split content ',', (keyOf env v).toBool = true) :
    ∃ keys ok rest,
      (addAccount env content w).2.trace = w.trace ++ .AddMultiSignAddress keys ok :: rest ∧
      (∀ e ∈ rest, ∀ ks b, e ≠ .AddMultiSignAddress ks b) ∧
      keys.length = (Split content ',').length ∧
      ∀ i (hi : i < (Split content ',').length) (hj : i < keys.length),
        keyOf env ((Split content ',').get ⟨i, hi⟩) = .ok (keys.get ⟨i, hj⟩) := by
  have hc : Contains content ',' = true :=
    Contains_of_two_fields content ',' (le_trans (by decide) hl)
  obtain ⟨ks, h1, h2⟩ := decodeKeys_of_all_ok env (Split content ',') [] hk
  obtain ⟨rest, h3, h4⟩ := addAccount_multiSign_trace env content w hc hl ([] ++ ks) h1
  have hlen : ks.length = (Split content ',').length := by
    have := congrArg List.length h2
    simpa using this.symm
  refine ⟨[] ++ ks, _, rest, h3, h4, by simpa using hlen, ?_⟩
  intro i hi hj
  have hj1 : i < ks.length := by simpa using hj
  have := congrArg (fun l => l[i]?) h2
  simp only [List.getElem?_map, List.getElem?_eq_getElem hi, List.getElem?_eq_getElem hj1,
    Option.map_some'] at this
  simpa using Option.some.inj this

/-- C10, on an input: three fields, the middle one padded with blanks. -/
theorem addAccount_keys_in_field_order_witness :
    ∃ keys ok rest,
      (addAccount simEnv "0201, 0302 ,0203" (simWorld sim0 [])).2.trace
        = (simWorld sim0 []).trace ++ .AddMultiSignAddress keys ok :: rest ∧
      (∀ e ∈ rest, ∀ ks b, e ≠ .AddMultiSignAddress ks b) ∧
      keys.length = (Split "0201, 0302 ,0203" ',').length ∧
      ∀ i (hi : i < (Split "0201, 0302 ,0203" ',').length) (hj : i < keys.length),
        keyOf simEnv ((Split "0201, 0302 ,0203" ',').get ⟨i, hi⟩) = .ok (keys.get ⟨i, hj⟩) :=
  addAccount_keys_in_field_order simEnv "0201, 0302 ,0203" (simWorld sim0 [])
    (by decide) (by decide)

end AddAccount

/-! ## `listBalanceInfo` -/

section Balance

variable {σ : Type}

theorem wrap64_wrap64_add (a x : Int) : wrap64 (wrap64 a + x) = wrap64 (a + x) := by
  unfold wrap64
  have h : ((a + 2 ^ 63) % 2 ^ 64 - 2 ^ 63 + x + 2 ^ 63) = ((a + 2 ^ 63) % 2 ^ 64 + x) := by ring
  rw [h, Int.emod_add_emod]
  congr 2
  ring

theorem wrap64_of_inFixed64 (x : Int) (h : inFixed64 x) : wrap64 x = x := by
  unfold inFixed64 at h
  have e1 : (2 : Int) ^ 63 = 9223372036854775808 := by norm_num
  have e2 : (2 : Int) ^ 64 = 18446744073709551616 := by norm_num
  rw [e1] at h
  have key : wrap64 x = (x + 9223372036854775808) % 18446744073709551616 - 9223372036854775808 := by
    unfold wrap64; rw [e1, e2]
  rw [key]
  have goal : (x + 9223372036854775808) % 18446744073709551616 - 9223372036854775808 = (x : Int) := by
    omega
  exact goal

theorem wrap64_ne_of_not_inFixed64 (x : Int) (h : ¬ inFixed64 x) : wrap64 x ≠ x := by
  unfold inFixed64 at h
  have e1 : (2 : Int) ^ 63 = 9223372036854775808 := by norm_num
  have e2 : (2 : Int) ^ 64 = 18446744073709551616 := by norm_num
  rw [e1] at h
  have key : wrap64 x = (x + 9223372036854775808) % 18446744073709551616 - 9223372036854775808 := by
    unfold wrap64; rw [e1, e2]
  rw [key]
  intro hx
  have hx1 : (x + 9223372036854775808) % 18446744073709551616 - 9223372036854775808 = (x : Int) := hx
  omega

theorem foldl_addFixed64 (us : List UTXO) :
    ∀ a : Int, us.foldl (fun balance utxo => addFixed64 balance utxo.Amount) (wrap64 a)
      = wrap64 (a + exactSum us) := by
  induction us with
  | nil => intro a; simp [exactSum]
  | cons u us ih =>
    intro a
    rw [List.foldl_cons,
      show addFixed64 (wrap64 a) u.Amount = wrap64 (a + u.Amount) from wrap64_wrap64_add _ _, ih]
    simp [exactSum, add_assoc]

/-- The sum loop yields the integer sum reduced to the `int64` range. -/
theorem sumAmounts_eq (us : List UTXO) : sumAmounts us = wrap64 (exactSum us) := by
  have h := foldl_addFixed64 us 0
  have h0 : wrap64 0 = 0 := by decide
  rw [h0] at h
  simpa [sumAmounts] using h

theorem balanceLoop_cons_error (env : Env σ) (a : Address) (rest : List Address) (w : World σ)
    (e : Foreign) (h : (env.GetAddressUTXOs a.ProgramHash w.ext).1 = .error e) :
    balanceLoop env (a :: rest) w =
      (.ret (some (.New ("get " ++ a.Address ++ " UTXOs failed"))),
        { ext := (env.GetAddressUTXOs a.ProgramHash w.ext).2, heap := w.heap,
          trace := w.trace ++ [.GetAddressUTXOs a.ProgramHash none] }) := by
  simp [balanceLoop, h, Except.toOption]

theorem balanceLoop_cons_ok (env : Env σ) (a : Address) (rest : List Address) (w : World σ)
    (us : List UTXO) (h : (env.GetAddressUTXOs a.ProgramHash w.ext).1 = .ok us) :
    balanceLoop env (a :: rest) w =
      balanceLoop env rest
        { ext := (env.GetAddressUTXOs a.ProgramHash w.ext).2, heap := w.heap,
          trace := w.trace ++
            ([.GetAddressUTXOs a.ProgramHash (some us),
              .Println ["Address:     ", a.Address],
              .Println ["ProgramHash: ", env.BytesToHexString (env.ToArrayReverse a.ProgramHash)],
              .Println ["Balance:     ", env.Fixed64String (sumAmounts us)]] ++ lineEvents) } := by
  simp [balanceLoop, h, Except.toOption]

theorem mem_lineEvents {e : Event} (h : e ∈ lineEvents) : e = .Print ["="] ∨ e = .Println [] := by
  unfold lineEvents at h
  rcases List.mem_append.mp h with h | h
  · exact Or.inl (List.eq_of_mem_replicate h)
  · exact Or.inr (List.mem_singleton.mp h)

theorem asked_lineEvents : asked lineEvents = [] := by decide

theorem fetched_lineEvents : fetched lineEvents = [] := by decide

theorem reported_lineEvents : reported lineEvents = [] := by decide

/-- What the address loop does, for any list of addresses and any world. -/
theorem balanceLoop_spec (env : Env σ) (addrs : List Address) :
    ∀ w : World σ, ∃ new,
      (balanceLoop env addrs w).2.trace = w.trace ++ new ∧
      reported new = (fetched new).map (fun p => env.Fixed64String (sumAmounts p.2)) ∧
      asked new <+: addrs.map Address.ProgramHash ∧
      ((balanceLoop env addrs w).1 = .ret none →
        (fetched new).map Prod.fst = addrs.map Address.ProgramHash) ∧
      (∀ e, (balanceLoop env addrs w).1 = .ret (some e) →
        ∃ h, Event.GetAddressUTXOs h none ∈ new) ∧
      (∀ c, (balanceLoop env addrs w).1 ≠ .exit c) ∧
      ((∀ h, Event.GetAddressUTXOs h none ∉ new) ↔ (balanceLoop env addrs w).1 = .ret none) := by
  induction addrs with
  | nil =>
    intro w
    exact ⟨[], by simp [balanceLoop], rfl, by simp [asked], by simp [fetched],
      by simp [balanceLoop], by simp [balanceLoop], by simp [balanceLoop]⟩
  | cons a rest ih =>
    intro w
    cases h : (env.GetAddressUTXOs a.ProgramHash w.ext).1 with
    | error e =>
      rw [balanceLoop_cons_error env a rest w e h]
      refine ⟨[.GetAddressUTXOs a.ProgramHash none], rfl, rfl, ?_, by simp, ?_, by simp, ?_⟩
      · simp [asked]
      · intro _ _; exact ⟨a.ProgramHash, by simp⟩
      · constructor
        · intro hno; exact absurd (List.mem_singleton.mpr rfl) (hno a.ProgramHash)
        · intro hret; simp at hret
    | ok us =>
      rw [balanceLoop_cons_ok env a rest w us h]
      obtain ⟨new, h1, h2, h3, h4, h5, h6, h7⟩ := ih
        { ext := (env.GetAddressUTXOs a.ProgramHash w.ext).2, heap := w.heap,
          trace := w.trace ++
            ([.GetAddressUTXOs a.ProgramHash (some us),
              .Println ["Address:     ", a.Address],
              .Println ["ProgramHash: ", env.BytesToHexString (env.ToArrayReverse a.ProgramHash)],
              .Println ["Balance:     ", env.Fixed64String (sumAmounts us)]] ++ lineEvents) }
      refine ⟨[.GetAddressUTXOs a.ProgramHash (some us),
              .Println ["Address:     ", a.Address],
              .Println ["ProgramHash: ", env.BytesToHexString (env.ToArrayReverse a.ProgramHash)],
              .Println ["Balance:     ", env.Fixed64String (sumAmounts us)]] ++ lineEvents ++ new,
        ?_, ?_, ?_, ?_, ?_, h6, ?_⟩
      · rw [h1]; simp [List.append_assoc]
      · simp [reported, fetched, List.filterMap_append] at h2 ⊢
        have hr := reported_lineEvents
        have hf := fetched_lineEvents
        simp only [reported, fetched] at hr hf
        rw [hr, hf, h2]
        simp
      · have ha := asked_lineEvents
        simp only [asked] at ha h3 ⊢
        simp [List.filterMap_append, ha]
        exact h3
      · intro hret
        have hf := fetched_lineEvents
        have := h4 hret
        simp only [fetched] at hf this ⊢
        simp [List.filterMap_append, hf, this]
      · intro e he
        obtain ⟨hh, hmem⟩ := h5 e he
        exact ⟨hh, by simp [hmem]⟩
      · constructor
        · intro hno
          apply h7.mp
          intro hh hmem
          exact hno hh (by simp [hmem])
        · intro hret hh hmem
          rcases List.mem_append.mp hmem with hpre | hmem
          · rcases List.mem_append.mp hpre with hpre | hline
            · simp at hpre
            · rcases mem_lineEvents hline with hl | hl <;> cases hl
          · exact h7.mpr hret hh hmem

theorem listBalanceInfo_run_error (env : Env σ) (w : World σ) (e : Foreign)
    (h : (env.GetAddresses (env.SyncChainData w.ext).2).1 = .error e) :
    listBalanceInfo env w =
      (.ret (some (.New "get wallet addresses failed")),
        { ext := (env.GetAddresses (env.SyncChainData w.ext).2).2, heap := w.heap,
          trace := w.trace ++
            [.SyncChainData, .GetAddresses false, .logError ["Get addresses error:", e.text]] }) := by
  simp [listBalanceInfo, h, Except.toBool]

theorem listBalanceInfo_run_ok (env : Env σ) (w : World σ) (addresses : List Address)
    (h : (env.GetAddresses (env.SyncChainData w.ext).2).1 = .ok addresses) :
    listBalanceInfo env w =
      balanceLoop env addresses
        { ext := (env.GetAddresses (env.SyncChainData w.ext).2).2, heap := w.heap,
          trace := w.trace ++ ([.SyncChainData, .GetAddresses true] ++ lineEvents) } := by
  simp [listBalanceInfo, h, Except.toBool]

/-- C6, as stated, fails: address `A` owns `2^63 - 1` and `2`, whose sum is
`2^63 + 1`; the `Balance:` line printed for `A` is `-(2^63 - 1)`, not that
sum, while the line of address `B` (amount 3) is 3. -/
theorem listBalanceInfo_balance_not_integer_sum :
    fetched (listBalanceInfo simEnv (simWorld simLargeAndSmall [])).2.trace
        = [([1], [⟨9223372036854775807⟩, ⟨2⟩]), ([2], [⟨3⟩])] ∧
      (fetched (listBalanceInfo simEnv (simWorld simLargeAndSmall [])).2.trace).map
          (fun p => exactSum p.2) = [9223372036854775809, 3] ∧
      reported (listBalanceInfo simEnv (simWorld simLargeAndSmall [])).2.trace
        = ["-9223372036854775807", "3"] ∧
      reported (listBalanceInfo simEnv (simWorld simLargeAndSmall [])).2.trace
        ≠ (fetched (listBalanceInfo simEnv (simWorld simLargeAndSmall [])).2.trace).map
            (fun p => simEnv.Fixed64String (exactSum p.2)) := by
  decide!

/-- C6, amended.  Balance additivity in `listBalanceInfo`: the `Balance:`
lines printed are, in order, one per UTXO list that `wallet.GetAddressUTXOs`
returned, each the rendering of the sum of the amounts of exactly that list,
taken from zero in `Fixed64`, that is the integer sum reduced to the `int64`
range; it is the integer sum itself whenever that lies in the range of
`Fixed64` (and 0 for an empty list); the lists were asked for the program
hashes of the addresses `wallet.GetAddresses` returned, in their order, and of
all of them when the function returns nil. -/
theorem listBalanceInfo_balance_additive (env : Env σ) (w : World σ) :
    ∃ new, (listBalanceInfo env w).2.trace = w.trace ++ new ∧
      reported new = (fetched new).map (fun p => env.Fixed64String (wrap64 (exactSum p.2))) ∧
      ((∀ p ∈ fetched new, inFixed64 (exactSum p.2)) →
        reported new = (fetched new).map (fun p => env.Fixed64String (exactSum p.2))) ∧
      (∀ p ∈ fetched new, p.2 = [] → env.Fixed64String (wrap64 (exactSum p.2)) = env.Fixed64String 0) ∧
      (∀ addresses, (env.GetAddresses (env.SyncChainData w.ext).2).1 = .ok addresses →
        asked new <+: addresses.map Address.ProgramHash ∧
        ((listBalanceInfo env w).1 = .ret none →
          (fetched new).map Prod.fst = addresses.map Address.ProgramHash)) := by
  have hexact : ∀ new : List Event,
      reported new = (fetched new).map (fun p => env.Fixed64String (wrap64 (exactSum p.2))) →
      (∀ p ∈ fetched new, inFixed64 (exactSum p.2)) →
        reported new = (fetched new).map (fun p => env.Fixed64String (exactSum p.2)) := by
    intro new h hin
    rw [h]
    apply List.map_congr_left
    intro p hp
    rw [wrap64_of_inFixed64 _ (hin p hp)]
  have hzero : ∀ new : List Event, ∀ p ∈ fetched new, p.2 = [] →
      env.Fixed64String (wrap64 (exactSum p.2)) = env.Fixed64String 0 := by
    intro new p _ hp
    rw [hp]
    rfl
  cases h : (env.GetAddresses (env.SyncChainData w.ext).2).1 with
  | error e =>
    rw [listBalanceInfo_run_error env w e h]
    refine ⟨_, rfl, rfl, fun _ => rfl, ?_, ?_⟩
    · intro p hp; simp [fetched] at hp
    · intro addresses hcontra; cases hcontra
  | ok addresses =>
    rw [listBalanceInfo_run_ok env w addresses h]
    obtain ⟨new, h1, h2, h3, h4, _, _, _⟩ := balanceLoop_spec env addresses
      { ext := (env.GetAddresses (env.SyncChainData w.ext).2).2, heap := w.heap,
        trace := w.trace ++ ([.SyncChainData, .GetAddresses true] ++ lineEvents) }
    have hr : reported ([.SyncChainData, .GetAddresses true] ++ lineEvents ++ new) = reported new := by
      have := reported_lineEvents
      simp only [reported] at this ⊢
      simp [List.filterMap_append, this]
    have hf : fetched ([.SyncChainData, .GetAddresses true] ++ lineEvents ++ new) = fetched new := by
      have := fetched_lineEvents
      simp only [fetched] at this ⊢
      simp [List.filterMap_append, this]
    have ha : asked ([.SyncChainData, .GetAddresses true] ++ lineEvents ++ new) = asked new := by
      have := asked_lineEvents
      simp only [asked] at this ⊢
      simp [List.filterMap_append, this]
    have h2w : reported ([.SyncChainData, .GetAddresses true] ++ lineEvents ++ new) =
        (fetched ([.SyncChainData, .GetAddresses true] ++ lineEvents ++ new)).map
          (fun p => env.Fixed64String (wrap64 (exactSum p.2))) := by
      rw [hr, hf, h2]
      apply List.map_congr_left
      intro p _
      rw [sumAmounts_eq]
    refine ⟨[.SyncChainData, .GetAddresses true] ++ lineEvents ++ new, ?_, h2w, hexact _ h2w,
      hzero _, ?_⟩
    · rw [h1]; simp [List.append_assoc]
    · intro addresses1 hcontra
      cases hcontra
      rw [ha, hf]
      exact ⟨h3, h4⟩

/-- C6, amended, on an input: address `A` owns 5 and 7, address `B` owns
nothing; both sums fit `Fixed64`, and the lines printed are 12 and 0. -/
theorem listBalanceInfo_balance_additive_witness :
    reported (listBalanceInfo simEnv (simWorld simTwoAddresses [])).2.trace
        = (fetched (listBalanceInfo simEnv (simWorld simTwoAddresses [])).2.trace).map
            (fun p => simEnv.Fixed64String (exactSum p.2)) ∧
      fetched (listBalanceInfo simEnv (simWorld simTwoAddresses [])).2.trace
        = [([1], [⟨5⟩, ⟨7⟩]), ([2], [])] ∧
      reported (listBalanceInfo simEnv (simWorld simTwoAddresses [])).2.trace = ["12", "0"] := by
  obtain ⟨new, h1, _, h3, _, _⟩ :=
    listBalanceInfo_balance_additive simEnv (simWorld simTwoAddresses [])
  have hnew : (listBalanceInfo simEnv (simWorld simTwoAddresses [])).2.trace = new :=
    h1.trans (List.nil_append new)
  have hin : ∀ p ∈ fetched (listBalanceInfo simEnv (simWorld simTwoAddresses [])).2.trace,
      inFixed64 (exactSum p.2) := by decide!
  refine ⟨?_, by decide!, by decide!⟩
  exact hnew ▸ h3 (hnew ▸ hin)

/-- C7, as stated, fails: the amounts `2^63 - 1` and `1` have an integer sum
outside `Fixed64`, yet `listBalanceInfo` returns nil and prints the wrapped
value `-2^63`. -/
theorem listBalanceInfo_overflow_not_rejected :
    ¬ inFixed64 (exactSum [⟨9223372036854775807⟩, ⟨1⟩]) ∧
      fetched (listBalanceInfo simEnv (simWorld simOverflow [])).2.trace
        = [([1], [⟨9223372036854775807⟩, ⟨1⟩])] ∧
      (listBalanceInfo simEnv (simWorld simOverflow [])).1 = .ret none ∧
      reported (listBalanceInfo simEnv (simWorld simOverflow [])).2.trace
        = ["-9223372036854775808"] := by
  decide!

/-- C7, amended.  `listBalanceInfo` has no overflow check: it never exits, it
returns an error exactly when `wallet.GetAddresses` fails or some
`wallet.GetAddressUTXOs` call fails, and for every list fetched, whatever its
amounts, the balance printed is the integer sum reduced to the `int64` range,
which differs from the integer sum exactly when that sum is out of range. -/
theorem listBalanceInfo_overflow_wraps (env : Env σ) (w : World σ) :
    ∃ new, (listBalanceInfo env w).2.trace = w.trace ++ new ∧
      (∀ c, (listBalanceInfo env w).1 ≠ .exit c) ∧
      ((∃ e, (listBalanceInfo env w).1 = .ret (some e)) ↔
        ((env.GetAddresses (env.SyncChainData w.ext).2).1.toBool = false ∨
          ∃ h, Event.GetAddressUTXOs h none ∈ new)) ∧
      reported new = (fetched new).map (fun p => env.Fixed64String (sumAmounts p.2)) ∧
      ∀ us : List UTXO, sumAmounts us = wrap64 (exactSum us) ∧
        (sumAmounts us = exactSum us ↔ inFixed64 (exactSum us)) := by
  have hsum : ∀ us : List UTXO, sumAmounts us = wrap64 (exactSum us) ∧
      (sumAmounts us = exactSum us ↔ inFixed64 (exactSum us)) := by
    intro us
    refine ⟨sumAmounts_eq us, ?_⟩
    rw [sumAmounts_eq]
    constructor
    · intro h
      by_contra hn
      exact wrap64_ne_of_not_inFixed64 _ hn h
    · exact wrap64_of_inFixed64 _
  cases h : (env.GetAddresses (env.SyncChainData w.ext).2).1 with
  | error e =>
    rw [listBalanceInfo_run_error env w e h]
    refine ⟨_, rfl, by simp, ?_, rfl, hsum⟩
    simp [Except.toBool]
  | ok addresses =>
    rw [listBalanceInfo_run_ok env w addresses h]
    obtain ⟨new, h1, h2, _, _, h5, h6, h7⟩ := balanceLoop_spec env addresses
      { ext := (env.GetAddresses (env.SyncChainData w.ext).2).2, heap := w.heap,
        trace := w.trace ++ ([.SyncChainData, .GetAddresses true] ++ lineEvents) }
    have hr : reported ([.SyncChainData, .GetAddresses true] ++ lineEvents ++ new) = reported new := by
      have := reported_lineEvents
      simp only [reported] at this ⊢
      simp [List.filterMap_append, this]
    have hf : fetched ([.SyncChainData, .GetAddresses true] ++ lineEvents ++ new) = fetched new := by
      have := fetched_lineEvents
      simp only [fetched] at this ⊢
      simp [List.filterMap_append, this]
    refine ⟨[.SyncChainData, .GetAddresses true] ++ lineEvents ++ new, ?_, h6, ?_, ?_, hsum⟩
    · rw [h1]; simp [List.append_assoc]
    · constructor
      · rintro ⟨e, he⟩
        obtain ⟨hh, hmem⟩ := h5 e he
        exact Or.inr ⟨hh, by simp [hmem]⟩
      · rintro (hbad | ⟨hh, hmem⟩)
        · simp [Except.toBool] at hbad
        · have hin : Event.GetAddressUTXOs hh none ∈ new := by
            rcases List.mem_append.mp hmem with hpre | hmem
            · rcases List.mem_append.mp hpre with hpre | hline
              · simp at hpre
              · rcases mem_lineEvents hline with hl | hl <;> cases hl
            · exact hmem
          generalize hres : (balanceLoop env addresses
            { ext := (env.GetAddresses (env.SyncChainData w.ext).2).2, heap := w.heap,
              trace := w.trace ++ ([.SyncChainData, .GetAddresses true] ++ lineEvents) }).1 = res
            at h6 h7
          cases res with
          | exit c => exact absurd rfl (h6 c)
          | ret a =>
            cases a with
            | some e => exact ⟨e, rfl⟩
            | none => exact absurd hin (h7.mpr rfl hh)
    · rw [hr, hf, h2]

end Balance

/-! ## Which events a function can add -/

section Emits

variable {σ α β : Type} {P : Event → Prop}

theorem Emits.pure (a : α) : Emits P (pure a : M σ α) :=
  fun w => ⟨[], by simp, by simp⟩

theorem Emits.bind {m : M σ α} {f : α → M σ β} (hm : Emits P m) (hf : ∀ a, Emits P (f a)) :
    Emits P (m >>= f) := by
  intro w
  obtain ⟨n1, h1, p1⟩ := hm w
  rw [bind_run]
  rcases hmw : m w with ⟨r, w1⟩
  rw [hmw] at h1
  cases r with
  | exit c => exact ⟨n1, h1, p1⟩
  | ret a =>
    obtain ⟨n2, h2, p2⟩ := hf a w1
    refine ⟨n1 ++ n2, ?_, ?_⟩
    · show (f a w1).2.trace = _
      rw [h2, h1, List.append_assoc]
    · intro e he
      rcases List.mem_append.mp he with h | h
      · exact p1 e h
      · exact p2 e h

theorem Emits.emit {e : Event} (h : P e) : Emits P (emit e : M σ Unit) :=
  fun w => ⟨[e], rfl, by simpa using h⟩

theorem Emits.Println {args : List String} (h : P (.Println args)) :
    Emits P (Println args : M σ Unit) :=
  Emits.emit h

theorem Emits.call (f : σ → α × σ) : Emits P (call f) :=
  fun w => ⟨[], by simp, by simp⟩

theorem Emits.osExit (code : Nat) : Emits P (osExit code : M σ α) :=
  fun w => ⟨[], by simp, by simp⟩

theorem Emits.alloc (b : List Nat) : Emits P (alloc b : M σ Slice) :=
  fun w => ⟨[], by simp, by simp⟩

theorem Emits.readBytes (s : Slice) : Emits P (readBytes s : M σ (List Nat)) :=
  fun w => ⟨[], by simp, by simp⟩

theorem Emits.len (s : Slice) : Emits P (len s : M σ Nat) :=
  fun w => ⟨[], by simp, by simp⟩

theorem Emits.ClearBytes (arr : Slice) (n : Nat) : Emits P (ClearBytes arr n : M σ Unit) := by
  intro w
  cases arr with
  | none => exact ⟨[], by simp [ElaWallet.ClearBytes], by simp⟩
  | some a => exact ⟨[], by simp [ElaWallet.ClearBytes], by simp⟩

theorem Emits.printLine (h1 : P (.Print ["="])) (h2 : P (.Println [])) :
    Emits P (printLine : M σ Unit) := by
  intro w
  refine ⟨lineEvents, rfl, ?_⟩
  intro e he
  rcases mem_lineEvents he with h | h
  · rw [h]; exact h1
  · rw [h]; exact h2

theorem ShowCommandHelpAndExit_emits (command : String) (code : Nat)
    (h : P (.ShowCommandHelp command)) :
    Emits P (ShowCommandHelpAndExit command code : M σ α) :=
  Emits.bind (Emits.emit h) (fun _ => Emits.osExit code)

theorem getPassword_emits (env : Env σ) (passwd : Slice) (confirmed : Bool)
    (h1 : ∀ b, P (.GetPassword b)) (h2 : ∀ b, P (.GetConfirmedPassword b))
    (h3 : ∀ args, P (.Println args)) :
    Emits P (getPassword env passwd confirmed) := by
  unfold getPassword
  refine Emits.bind (Emits.len _) (fun n => ?_)
  split
  · exact Emits.pure _
  · split
    · refine Emits.bind (Emits.call _) (fun r => ?_)
      cases r with
      | error err =>
        exact Emits.bind (Emits.emit (h2 _)) (fun _ =>
          Emits.bind (Emits.Println (h3 _)) (fun _ => Emits.osExit _))
      | ok b =>
        exact Emits.bind (Emits.alloc _) (fun _ =>
          Emits.bind (Emits.emit (h2 _)) (fun _ => Emits.pure _))
    · refine Emits.bind (Emits.call _) (fun r => ?_)
      cases r with
      | error err =>
        exact Emits.bind (Emits.emit (h1 _)) (fun _ =>
          Emits.bind (Emits.Println (h3 _)) (fun _ => Emits.osExit _))
      | ok b =>
        exact Emits.bind (Emits.alloc _) (fun _ =>
          Emits.bind (Emits.emit (h1 _)) (fun _ => Emits.pure _))

theorem showAccountInfo_emits (env : Env σ) (password : Slice)
    (hP : ∀ e : Event, e.isChangePassword = false → e.isPasswordCheck = false → P e)
    (hO : ∀ pw ok, P (.OpenKeyStore pw ok)) :
    Emits P (showAccountInfo env password) := by
  unfold showAccountInfo
  refine Emits.bind (getPassword_emits env _ _ (fun _ => hP _ rfl rfl) (fun _ => hP _ rfl rfl)
    (fun _ => hP _ rfl rfl)) (fun pw => ?_)
  refine Emits.bind (Emits.len _) (fun n => ?_)
  refine Emits.bind ?_ (fun r => Emits.bind (Emits.ClearBytes _ _) (fun _ => Emits.pure _))
  refine Emits.bind (Emits.readBytes _) (fun b => ?_)
  refine Emits.bind (Emits.call _) (fun err => ?_)
  refine Emits.bind (Emits.emit (hO _ _)) (fun _ => ?_)
  cases err with
  | some e => exact Emits.pure _
  | none =>
    refine Emits.bind (Emits.call _) (fun programHash => ?_)
    refine Emits.bind (Emits.readBytes _) (fun b => ?_)
    refine Emits.bind (Emits.call _) (fun publicKey => ?_)
    refine Emits.bind (Emits.emit (hP _ rfl rfl)) (fun _ => ?_)
    refine Emits.bind (Emits.printLine (hP _ rfl rfl) (hP _ rfl rfl)) (fun _ => ?_)
    refine Emits.bind (Emits.Println (hP _ rfl rfl)) (fun _ => ?_)
    refine Emits.bind (Emits.Println (hP _ rfl rfl)) (fun _ => ?_)
    refine Emits.bind (Emits.Println (hP _ rfl rfl)) (fun _ => ?_)
    exact Emits.bind (Emits.printLine (hP _ rfl rfl) (hP _ rfl rfl)) (fun _ => Emits.pure _)

theorem createWallet_emits (env : Env σ) (password : Slice)
    (hP : ∀ e : Event, e.isChangePassword = false → e.isPasswordCheck = false → P e)
    (hO : ∀ pw ok, P (.OpenKeyStore pw ok)) :
    Emits P (createWallet env password) := by
  unfold createWallet
  refine Emits.bind (Emits.len _) (fun n => ?_)
  refine Emits.bind ?_ (fun r => Emits.bind (Emits.ClearBytes _ _) (fun _ => Emits.pure _))
  refine Emits.bind (getPassword_emits env _ _ (fun _ => hP _ rfl rfl) (fun _ => hP _ rfl rfl)
    (fun _ => hP _ rfl rfl)) (fun pw => ?_)
  refine Emits.bind (Emits.readBytes _) (fun b => ?_)
  refine Emits.bind (Emits.call _) (fun err => ?_)
  refine Emits.bind (Emits.emit (hP _ rfl rfl)) (fun _ => ?_)
  cases err with
  | some e => exact Emits.pure _
  | none => exact showAccountInfo_emits env password hP hO

theorem syncAfterAdd_emits (env : Env σ)
    (hP : ∀ e : Event, e.isChangePassword = false → e.isPasswordCheck = false → P e) :
    Emits P (syncAfterAdd env) := by
  unfold syncAfterAdd
  refine Emits.bind (Emits.call _) (fun _ => ?_)
  refine Emits.bind (Emits.emit (hP _ rfl rfl)) (fun _ => ?_)
  refine Emits.bind (Emits.call _) (fun _ => ?_)
  exact Emits.bind (Emits.emit (hP _ rfl rfl)) (fun _ => Emits.pure _)

theorem addAccount_emits (env : Env σ) (content : String)
    (hP : ∀ e : Event, e.isChangePassword = false → e.isPasswordCheck = false → P e) :
    Emits P (addAccount env content) := by
  unfold addAccount
  split
  · split
    · exact Emits.pure _
    · split
      · exact Emits.pure _
      · refine Emits.bind (Emits.call _) (fun r => ?_)
        refine Emits.bind (Emits.emit (hP _ rfl rfl)) (fun _ => ?_)
        cases r with
        | error e => exact Emits.pure _
        | ok programHash =>
          show Emits P (match env.ToAddress programHash with
            | (_, some err) => Pure.pure (some (GoError.foreign err))
            | (address, none) => do
              Println [address]
              syncAfterAdd env)
          split
          · exact Emits.pure _
          · exact Emits.bind (Emits.Println (hP _ rfl rfl)) (fun _ => syncAfterAdd_emits env hP)
  · dsimp only
    split
    · exact Emits.pure _
    · split
      · exact Emits.pure _
      · refine Emits.bind (Emits.call _) (fun r => ?_)
        refine Emits.bind (Emits.emit (hP _ rfl rfl)) (fun _ => ?_)
        cases r with
        | error e => exact Emits.pure _
        | ok programHash =>
          show Emits P (match env.ToAddress programHash with
            | (_, some err) => Pure.pure (some (GoError.foreign err))
            | (address, none) => do
              Println [address]
              syncAfterAdd env)
          split
          · exact Emits.pure _
          · exact Emits.bind (Emits.Println (hP _ rfl rfl)) (fun _ => syncAfterAdd_emits env hP)

theorem balanceLoop_emits (env : Env σ) (addrs : List Address)
    (hP : ∀ e : Event, e.isChangePassword = false → e.isPasswordCheck = false → P e) :
    Emits P (balanceLoop env addrs) := by
  induction addrs with
  | nil => exact Emits.pure _
  | cons a rest ih =>
    unfold balanceLoop
    refine Emits.bind (Emits.call _) (fun r => ?_)
    refine Emits.bind (Emits.emit (hP _ rfl rfl)) (fun _ => ?_)
    cases r with
    | error e => exact Emits.pure _
    | ok UTXOs =>
      refine Emits.bind (Emits.Println (hP _ rfl rfl)) (fun _ => ?_)
      refine Emits.bind (Emits.Println (hP _ rfl rfl)) (fun _ => ?_)
      refine Emits.bind (Emits.Println (hP _ rfl rfl)) (fun _ => ?_)
      exact Emits.bind (Emits.printLine (hP _ rfl rfl) (hP _ rfl rfl)) (fun _ => ih)

theorem listBalanceInfo_emits (env : Env σ)
    (hP : ∀ e : Event, e.isChangePassword = false → e.isPasswordCheck = false → P e) :
    Emits P (listBalanceInfo env) := by
  unfold listBalanceInfo
  refine Emits.bind (Emits.call _) (fun _ => ?_)
  refine Emits.bind (Emits.emit (hP _ rfl rfl)) (fun _ => ?_)
  refine Emits.bind (Emits.call _) (fun r => ?_)
  refine Emits.bind (Emits.emit (hP _ rfl rfl)) (fun _ => ?_)
  cases r with
  | error e => exact Emits.bind (Emits.emit (hP _ rfl rfl)) (fun _ => Emits.pure _)
  | ok addresses =>
    exact Emits.bind (Emits.printLine (hP _ rfl rfl) (hP _ rfl rfl))
      (fun _ => balanceLoop_emits env addresses hP)

theorem transactionAction_emits (env : Env σ) (context : Context) (param : String)
    (hP : ∀ e : Event, e.isChangePassword = false → e.isPasswordCheck = false → P e) :
    Emits P (transactionAction env context param) := by
  unfold transactionAction
  split
  · refine Emits.bind (Emits.call _) (fun err => ?_)
    refine Emits.bind (Emits.emit (hP _ rfl rfl)) (fun _ => ?_)
    cases err with
    | some e => exact Emits.bind (Emits.Println (hP _ rfl rfl)) (fun _ => Emits.osExit _)
    | none => exact Emits.pure _
  · split
    · refine Emits.bind (Emits.alloc _) (fun buf => ?_)
      refine Emits.bind (Emits.readBytes _) (fun pw => ?_)
      refine Emits.bind (Emits.call _) (fun err => ?_)
      refine Emits.bind (Emits.emit (hP _ rfl rfl)) (fun _ => ?_)
      cases err with
      | some e => exact Emits.bind (Emits.Println (hP _ rfl rfl)) (fun _ => Emits.osExit _)
      | none => exact Emits.pure _
    · split
      · refine Emits.bind (Emits.call _) (fun err => ?_)
        refine Emits.bind (Emits.emit (hP _ rfl rfl)) (fun _ => ?_)
        cases err with
        | some e => exact Emits.bind (Emits.Println (hP _ rfl rfl)) (fun _ => Emits.osExit _)
        | none => exact Emits.pure _
      · exact ShowCommandHelpAndExit_emits _ _ (hP _ rfl rfl)

end Emits

/-! ## The password gate of `walletAction` -/

section Gate

variable {σ α β : Type}

theorem gated_true (es : List Event) : gated true es = true := by
  induction es with
  | nil => rfl
  | cons e es ih =>
    cases e <;> try (simp [gated, ih])
    case VerifyPassword pw ok => cases ok <;> simp [gated, ih]

theorem gated_of_notChange (es : List Event) (h : ∀ e ∈ es, e.isChangePassword = false) :
    ∀ v, gated v es = true := by
  induction es with
  | nil => intro v; rfl
  | cons e es ih =>
    intro v
    have he := h e (List.mem_cons_self _ _)
    have ih1 := ih (fun x hx => h x (List.mem_cons_of_mem _ hx))
    cases e <;> try (simp [gated, ih1])
    case VerifyPassword pw ok => cases ok <;> simp [gated, ih1]
    case ChangePassword o n ok => simp [Event.isChangePassword] at he

theorem gated_append_left (xs ys : List Event) (h : ∀ e ∈ xs, e.isChangePassword = false) :
    ∀ v, gated v ys = true → gated v (xs ++ ys) = true := by
  induction xs with
  | nil => intro v hy; simpa using hy
  | cons e xs ih =>
    intro v hy
    have he := h e (List.mem_cons_self _ _)
    have ih1 := ih (fun x hx => h x (List.mem_cons_of_mem _ hx))
    cases e <;> try (simp [gated, ih1 v hy])
    case VerifyPassword pw ok =>
      cases ok
      · simp [gated, ih1 v hy]
      · simp [gated, ih1 true (gated_true ys)]
    case ChangePassword o n ok => simp [Event.isChangePassword] at he

theorem gated_append_right (xs ys : List Event) (h : ∀ e ∈ ys, e.isChangePassword = false) :
    ∀ v, gated v xs = true → gated v (xs ++ ys) = true := by
  induction xs with
  | nil => intro v _; simpa using gated_of_notChange ys h v
  | cons e xs ih =>
    intro v hx
    cases e <;> try (simp [gated] at hx ⊢; exact ih v hx)
    case VerifyPassword pw ok =>
      cases ok
      · simp [gated] at hx ⊢; exact ih v hx
      · simp [gated] at hx ⊢; exact ih true hx
    case ChangePassword o n ok =>
      simp [gated] at hx ⊢
      exact ⟨hx.1, ih v hx.2⟩

theorem Gated.of_emits {m : M σ α} (v : Bool)
    (h : Emits (fun e => e.isChangePassword = false) m) : Gated v m := by
  intro w
  obtain ⟨new, h1, h2⟩ := h w
  exact ⟨new, h1, gated_of_notChange new h2 v⟩

theorem Gated.bind_emits {m : M σ α} {f : α → M σ β} (v : Bool)
    (hm : Emits (fun e => e.isChangePassword = false) m) (hf : ∀ a, Gated v (f a)) :
    Gated v (m >>= f) := by
  intro w
  obtain ⟨n1, h1, p1⟩ := hm w
  rw [bind_run]
  rcases hmw : m w with ⟨r, w1⟩
  rw [hmw] at h1
  cases r with
  | exit c => exact ⟨n1, h1, gated_of_notChange n1 p1 v⟩
  | ret a =>
    obtain ⟨n2, h2, p2⟩ := hf a w1
    refine ⟨n1 ++ n2, ?_, gated_append_left n1 n2 p1 v p2⟩
    show (f a w1).2.trace = _
    rw [h2, h1, List.append_assoc]

theorem Gated.then_emits {m : M σ α} {f : α → M σ β} (v : Bool)
    (hm : Gated v m) (hf : ∀ a, Emits (fun e => e.isChangePassword = false) (f a)) :
    Gated v (m >>= f) := by
  intro w
  obtain ⟨n1, h1, p1⟩ := hm w
  rw [bind_run]
  rcases hmw : m w with ⟨r, w1⟩
  rw [hmw] at h1
  cases r with
  | exit c => exact ⟨n1, h1, p1⟩
  | ret a =>
    obtain ⟨n2, h2, p2⟩ := hf a w1
    refine ⟨n1 ++ n2, ?_, gated_append_right n1 n2 p2 v p1⟩
    show (f a w1).2.trace = _
    rw [h2, h1, List.append_assoc]

theorem Gated.verified {rest : M σ α} (v : Bool) (pw : Slice)
    (h : Emits (fun _ => True) rest) :
    Gated v (emit (.VerifyPassword pw true) >>= fun _ => rest) := by
  intro w
  obtain ⟨n, h1, _⟩ := h { w with trace := w.trace ++ [.VerifyPassword pw true] }
  refine ⟨.VerifyPassword pw true :: n, ?_, ?_⟩
  · simp only [bind_run, emit_run]
    rw [h1]
    simp
  · simp [gated, gated_true]

theorem changePassword_gated (env : Env σ) (password : Slice) (v : Bool) :
    Gated v (changePassword env password) := by
  unfold changePassword
  refine Gated.bind_emits v
    (getPassword_emits env _ _ (fun _ => rfl) (fun _ => rfl) (fun _ => rfl)) (fun old => ?_)
  refine Gated.bind_emits v (Emits.readBytes _) (fun b => ?_)
  refine Gated.bind_emits v (Emits.call _) (fun err => ?_)
  cases err with
  | some e => exact Gated.of_emits v (Emits.bind (Emits.emit rfl) (fun _ => Emits.pure _))
  | none =>
    refine Gated.verified v old ?_
    refine Emits.bind (Emits.len _) (fun n => ?_)
    refine Emits.bind ?_ (fun r => Emits.bind (Emits.ClearBytes _ _) (fun _ => Emits.pure _))
    refine Emits.bind (Emits.Println trivial) (fun _ => ?_)
    refine Emits.bind (getPassword_emits env _ _ (fun _ => trivial) (fun _ => trivial)
      (fun _ => trivial)) (fun new => ?_)
    refine Emits.bind (Emits.readBytes _) (fun _ => ?_)
    refine Emits.bind (Emits.readBytes _) (fun _ => ?_)
    refine Emits.bind (Emits.call _) (fun err => ?_)
    refine Emits.bind (Emits.emit trivial) (fun _ => ?_)
    cases err with
    | some e => exact Emits.pure _
    | none =>
      refine Emits.bind (Emits.len _) (fun m => ?_)
      refine Emits.bind (Emits.Println trivial) (fun _ => ?_)
      exact Emits.bind (Emits.ClearBytes _ _) (fun _ => Emits.pure _)

theorem openedAction_gated (env : Env σ) (context : Context) (v : Bool) :
    Gated v (openedAction env context) := by
  have hP : ∀ e : Event, e.isChangePassword = false → e.isPasswordCheck = false →
      e.isChangePassword = false := fun _ h _ => h
  unfold openedAction
  dsimp only
  split
  · refine Gated.of_emits v ?_
    refine Emits.bind (Emits.alloc _) (fun buf => ?_)
    refine Emits.bind (showAccountInfo_emits env buf hP (fun _ _ => rfl)) (fun err => ?_)
    cases err with
    | some e =>
      exact Emits.bind (Emits.Println rfl) (fun _ => ShowCommandHelpAndExit_emits _ _ rfl)
    | none => exact Emits.pure _
  · split
    · refine Gated.bind_emits v (Emits.alloc _) (fun buf => ?_)
      refine Gated.then_emits v (changePassword_gated env buf v) (fun err => ?_)
      cases err with
      | some e =>
        exact Emits.bind (Emits.Println rfl) (fun _ => ShowCommandHelpAndExit_emits _ _ rfl)
      | none => exact Emits.pure _
    · split
      · refine Gated.of_emits v ?_
        refine Emits.bind (addAccount_emits env _ hP) (fun err => ?_)
        cases err with
        | some e =>
          exact Emits.bind (Emits.Println rfl) (fun _ => ShowCommandHelpAndExit_emits _ _ rfl)
        | none => exact Emits.pure _
      · split
        · refine Gated.of_emits v ?_
          refine Emits.bind (listBalanceInfo_emits env hP) (fun err => ?_)
          cases err with
          | some e =>
            exact Emits.bind (Emits.Println rfl) (fun _ => ShowCommandHelpAndExit_emits _ _ rfl)
          | none => exact Emits.pure _
        · split
          · exact Gated.of_emits v (transactionAction_emits env context _ hP)
          · split
            · refine Gated.of_emits v ?_
              refine Emits.bind (Emits.call _) (fun err => ?_)
              refine Emits.bind (Emits.emit rfl) (fun _ => ?_)
              cases err with
              | some e =>
                exact Emits.bind (Emits.Println rfl) (fun _ => ShowCommandHelpAndExit_emits _ _ rfl)
              | none => exact Emits.Println rfl
            · exact Gated.of_emits v (Emits.pure _)

theorem walletAction_gated (env : Env σ) (context : Context) (v : Bool) :
    Gated v (walletAction env context) := by
  have hP : ∀ e : Event, e.isChangePassword = false → e.isPasswordCheck = false →
      e.isChangePassword = false := fun _ h _ => h
  unfold walletAction
  split
  · exact Gated.of_emits v (Emits.bind (Emits.emit rfl) (fun _ => Emits.osExit _))
  · split
    · refine Gated.of_emits v ?_
      refine Emits.bind (Emits.alloc _) (fun buf => ?_)
      refine Emits.bind (createWallet_emits env buf hP (fun _ _ => rfl)) (fun err => ?_)
      cases err with
      | some e =>
        exact Emits.bind (Emits.Println rfl) (fun _ => ShowCommandHelpAndExit_emits _ _ rfl)
      | none => exact Emits.pure _
    · refine Gated.bind_emits v (Emits.call _) (fun err => ?_)
      refine Gated.bind_emits v (Emits.emit rfl) (fun _ => ?_)
      cases err with
      | some e => exact Gated.of_emits v (Emits.bind (Emits.Println rfl) (fun _ => Emits.osExit _))
      | none => exact openedAction_gated env context v

theorem walletAction_unchecked (env : Env σ) (context : Context)
    (h1 : context.create = false) (h2 : context.account = false)
    (h3 : context.changepassword = false) (h4 : context.transaction = "") :
    Emits (fun e => e.isPasswordCheck = false) (walletAction env context) := by
  have hP : ∀ e : Event, e.isChangePassword = false → e.isPasswordCheck = false →
      e.isPasswordCheck = false := fun _ _ h => h
  unfold walletAction
  split
  · exact Emits.bind (Emits.emit rfl) (fun _ => Emits.osExit _)
  · simp only [h1, Bool.false_eq_true, if_false]
    refine Emits.bind (Emits.call _) (fun err => ?_)
    refine Emits.bind (Emits.emit rfl) (fun _ => ?_)
    cases err with
    | some e => exact Emits.bind (Emits.Println rfl) (fun _ => Emits.osExit _)
    | none =>
      show Emits _ (openedAction env context)
      unfold openedAction
      simp only [h2, h3, Bool.false_eq_true, if_false]
      split
      · refine Emits.bind (addAccount_emits env _ hP) (fun err => ?_)
        cases err with
        | some e =>
          exact Emits.bind (Emits.Println rfl) (fun _ => ShowCommandHelpAndExit_emits _ _ rfl)
        | none => exact Emits.pure _
      · split
        · refine Emits.bind (listBalanceInfo_emits env hP) (fun err => ?_)
          cases err with
          | some e =>
            exact Emits.bind (Emits.Println rfl) (fun _ => ShowCommandHelpAndExit_emits _ _ rfl)
          | none => exact Emits.pure _
        · split
          · exact absurd h4 ‹_›
          · split
            · refine Emits.bind (Emits.call _) (fun err => ?_)
              refine Emits.bind (Emits.emit rfl) (fun _ => ?_)
              cases err with
              | some e =>
                exact Emits.bind (Emits.Println rfl) (fun _ => ShowCommandHelpAndExit_emits _ _ rfl)
              | none => exact Emits.Println rfl
            · exact Emits.pure _

/-- C8, as stated, fails: `ela-cli wallet --addaccount 0201` adds the account
to the wallet although no password was checked: the only calls are
`walt.Open`, `wallet.AddStandardAddress`, `wallet.CurrentHeight` and
`wallet.SyncChainData`. -/
theorem walletAction_adds_account_unverified :
    (walletAction simEnv ctxAddAccount (simWorld sim0 [])).1 = .ret () ∧
      (walletAction simEnv ctxAddAccount (simWorld sim0 [])).2.trace
        = [.Open true, .AddStandardAddress ⟨1, 0⟩ true, .Println ["B"], .CurrentHeight 0,
            .SyncChainData] ∧
      (walletAction simEnv ctxAddAccount (simWorld sim0 [])).2.ext.accounts = [[⟨1, 0⟩]] := by
  decide!

/-- C8, amended.  In every run of `walletAction`, `wallet.ChangePassword` is
called only after a `wallet.VerifyPassword` of the same run has succeeded;
and when none of `--create`, `--account`, `--changepassword`,
`--transaction` is given (so for `addAccount`, `listBalanceInfo` and
`wallet.Reset`) no password is checked at all, neither by
`wallet.VerifyPassword` nor by `walt.OpenKeyStore`.  The calls made inside
`createTransaction`, `signTransaction` and `sendTransaction`, which live in
another file, are outside this statement. -/
theorem walletAction_password_gate (env : Env σ) (context : Context) (w : World σ) :
    ∃ new, (walletAction env context w).2.trace = w.trace ++ new ∧
      gated false new = true ∧
      (context.create = false → context.account = false → context.changepassword = false →
        context.transaction = "" → ∀ e ∈ new, e.isPasswordCheck = false) := by
  obtain ⟨new, h1, h2⟩ := walletAction_gated env context false w
  refine ⟨new, h1, h2, ?_⟩
  intro hc ha hp ht
  obtain ⟨new1, g1, g2⟩ := walletAction_unchecked env context hc ha hp ht w
  have : new = new1 := List.append_cancel_left (h1.symm.trans g1)
  rw [this]
  exact g2

/-- C8, amended, on an input: `ela-cli wallet --addaccount 0201`. -/
theorem walletAction_password_gate_witness :
    ∃ new, (walletAction simEnv ctxAddAccount (simWorld sim0 [])).2.trace
        = (simWorld sim0 []).trace ++ new ∧
      gated false new = true ∧ ∀ e ∈ new, e.isPasswordCheck = false := by
  obtain ⟨new, h1, h2, h3⟩ := walletAction_password_gate simEnv ctxAddAccount (simWorld sim0 [])
  exact ⟨new, h1, h2, h3 rfl rfl rfl rfl⟩

end Gate

/-! ## Password buffers -/

section Passwords

/-- C1.  Two runs of `changePassword` that return with a password left in
memory.  With a wrong old password `xyz`, `wallet.VerifyPassword` fails and
the buffer handed to it still holds `xyz`.  With the right old password and a
store that refuses the change, the old buffer is zeroed but the buffer of the
new password still holds `new`. -/
theorem changePassword_leaves_password :
    (changePassword simEnv (some 0) (simWorld sim0 [[120, 121, 122]])).1
        = .ret (some (.foreign ⟨"password wrong"⟩)) ∧
      (changePassword simEnv (some 0) (simWorld sim0 [[120, 121, 122]])).2.trace
        = [.VerifyPassword (some 0) false] ∧
      (changePassword simEnv (some 0) (simWorld sim0 [[120, 121, 122]])).2.heap
        = [[120, 121, 122]] ∧
      (changePassword simEnv (some 0) (simWorld simReadOnly [[97, 98, 99]])).1
        = .ret (some (.New "failed to change password")) ∧
      calls (changePassword simEnv (some 0) (simWorld simReadOnly [[97, 98, 99]])).2.trace
        = [.VerifyPassword (some 0) true, .GetConfirmedPassword (some (some 1)),
            .ChangePassword (some 0) (some 1) false] ∧
      (changePassword simEnv (some 0) (simWorld simReadOnly [[97, 98, 99]])).2.heap
        = [[0, 0, 0], [110, 101, 119]] := by
  decide!

/-- C2.  Two runs of `createWallet` with an empty password argument, so that
the password `pw` is typed at the terminal.  Whether `walt.Create` succeeds or
fails, the buffer handed to it (index 1) still holds `pw` when `createWallet`
returns; only the buffer `showAccountInfo` asked for (index 2) is zeroed. -/
theorem createWallet_leaves_prompted_password :
    (createWallet simEnv (some 0) (simWorld simTyped [[]])).1 = .ret none ∧
      calls (createWallet simEnv (some 0) (simWorld simTyped [[]])).2.trace
        = [.GetConfirmedPassword (some (some 1)), .Create (some 1) true,
            .GetPassword (some (some 2)), .OpenKeyStore (some 2) true, .GetPublicKey (some 2)] ∧
      (createWallet simEnv (some 0) (simWorld simTyped [[]])).2.heap
        = [[], [112, 119], [0, 0]] ∧
      (createWallet simEnv (some 0) (simWorld simTypedReadOnly [[]])).1
        = .ret (some (.foreign ⟨"create keystore failed"⟩)) ∧
      calls (createWallet simEnv (some 0) (simWorld simTypedReadOnly [[]])).2.trace
        = [.GetConfirmedPassword (some (some 1)), .Create (some 1) false] ∧
      (createWallet simEnv (some 0) (simWorld simTypedReadOnly [[]])).2.heap
        = [[], [112, 119]] := by
  decide!

end Passwords

end ElaWallet
